import Mathlib

/-!
# Verification of the gemini_extract job-execution core

A shallow embedding, in Lean 4, of the concurrent job-execution core of the
gemini_extract Go program: the job dispatcher (`prepareTasks`), the worker
loop with its per-procedure summary aggregation (`worker` / `runJobs`), the
row formatter (`formatRow` / `sanitize`), the spool/merge stage
(`extractData` / `mergeFiles`), the statement cache (`prepareStatements`),
and the persisted log/summary writers (`writeLog` / `writeSummary`).

Modelling conventions:
* Go `time.Time` values are modelled as `Int` nanoseconds since the Unix
  epoch (`time.Time.Before` is `<`, `time.Time.After` is `>`); the calendar
  rendering used by the log writers is recovered by `formatGoTime`.
* Go strings are modelled as Lean `String`s; byte-wise operations coincide
  with character-wise ones on the ASCII data the program handles, so
  `len`/slicing/comparison are modelled character-wise.
* The database and the filesystem are external collaborators; they enter
  the model as explicit arguments (query results, open/create outcomes).
* The two-valued execution status strings `"SUCCESS"`/`"FAIL"` (the only
  values the workers ever store) are modelled by the inductive `Status`.
-/

namespace GeminiExtract

/-- Execution status of one work item: the Go code stores the strings
`"SUCCESS"` or `"FAIL"` and never any other value. -/
inductive Status where
  | success
  | fail
deriving DecidableEq, Repr

/-- The string the Go code stores for a `Status`. -/
def statusStr : Status → String
  | .success => "SUCCESS"
  | .fail => "FAIL"

/-- `ProcLog` (types.go): the per-work-item execution record produced by a
worker.  Times are `Int` nanoseconds; `executionTime` is `EndTime.Sub(StartTime)`. -/
structure ProcLog where
  solID : String
  procedure : String
  startTime : Int
  endTime : Int
  executionTime : Int
  status : Status
  errorDetails : String
deriving DecidableEq, Repr

/-- `ProcSummary` (types.go): the per-procedure aggregate maintained under
the summary mutex. -/
structure ProcSummary where
  procedure : String
  startTime : Int
  endTime : Int
  status : Status
deriving DecidableEq, Repr

/-- `ColumnConfig` (types.go): one column of an extraction template.
`length` is a Go `int`; a negative length makes the Go fixed-width
formatter panic at `val[:col.Length]`, so the formatter claims assume
`0 ≤ length`. -/
structure ColumnConfig where
  name : String
  length : Int
  align : String
deriving DecidableEq, Repr

/-- The fields of `ExtractionConfig` the job-execution core reads. -/
structure ExtractionConfig where
  format : String
  delimiter : String
  procedures : List String
  packageName : String
  spoolOutputPath : String
deriving DecidableEq, Repr

/-- `ProcTask` (types used by task_execution.go; `Job` in utils.go/main.go is
the same pair under another name): one (identifier, procedure) work item. -/
structure ProcTask where
  solID : String
  procedure : String
deriving DecidableEq, Repr

/-! ## Go string ordering

`sort.Strings` compares Go strings byte-wise; UTF-8 byte order agrees with
code-point order, so we compare character lists by code point. -/

/-- Byte-wise (here: code-point-wise) lexicographic `≤` on character lists,
as used by Go's `sort.Strings`. -/
def goCharsLe : List Char → List Char → Bool
  | [], _ => true
  | _ :: _, [] => false
  | a :: as, b :: bs =>
    if a.toNat < b.toNat then true
    else if b.toNat < a.toNat then false
    else goCharsLe as bs

/-- Lexicographic `≤` on strings, as used by Go's `sort.Strings`. -/
def goStrLe (a b : String) : Bool :=
  goCharsLe a.data b.data

/-- `goStrLe` as a decidable relation (for `List.insertionSort`). -/
def goStrLeP (a b : String) : Prop := goStrLe a b = true

instance : DecidableRel goStrLeP := fun a b => instDecidableEqBool (goStrLe a b) true

theorem goCharsLe_total : ∀ as bs : List Char, goCharsLe as bs = true ∨ goCharsLe bs as = true := by
  intro as
  induction as with
  | nil => intro bs; left; rfl
  | cons a as ih =>
    intro bs
    cases bs with
    | nil => right; rfl
    | cons b bs =>
      simp only [goCharsLe]
      rcases Nat.lt_trichotomy a.toNat b.toNat with h | h | h
      · left; simp [h]
      · have h1 : ¬ a.toNat < b.toNat := by omega
        have h2 : ¬ b.toNat < a.toNat := by omega
        rcases ih bs with h3 | h3 <;> simp [h1, h2, h3]
      · right; simp [h]

theorem goCharsLe_trans : ∀ as bs cs : List Char,
    goCharsLe as bs = true → goCharsLe bs cs = true → goCharsLe as cs = true := by
  intro as
  induction as with
  | nil => intro bs cs _ _; rfl
  | cons a as ih =>
    intro bs cs h1 h2
    cases bs with
    | nil => simp [goCharsLe] at h1
    | cons b bs =>
      cases cs with
      | nil => simp [goCharsLe] at h2
      | cons c cs =>
        simp only [goCharsLe] at h1 h2 ⊢
        by_cases hab : a.toNat < b.toNat <;> by_cases hbc : b.toNat < c.toNat
        · simp [show a.toNat < c.toNat by omega]
        · simp only [hbc, if_neg, if_pos, if_false] at h2
          by_cases hcb : c.toNat < b.toNat
          · simp [hcb] at h2
          · have : b.toNat = c.toNat := by omega
            simp [show a.toNat < c.toNat by omega]
        · simp only [hab, if_neg, if_false] at h1
          by_cases hba : b.toNat < a.toNat
          · simp [hba] at h1
          · have : a.toNat = b.toNat := by omega
            simp [show a.toNat < c.toNat by omega]
        · by_cases hba : b.toNat < a.toNat
          · simp [hab, hba] at h1
          · by_cases hcb : c.toNat < b.toNat
            · simp [hbc, hcb] at h2
            · have hac : ¬ a.toNat < c.toNat := by omega
              have hca : ¬ c.toNat < a.toNat := by omega
              simp only [hab, hba, if_neg, if_false] at h1
              simp only [hbc, hcb, if_neg, if_false] at h2
              simp [hac, hca, ih bs cs h1 h2]

instance : IsTotal String goStrLeP :=
  ⟨fun a b => goCharsLe_total a.data b.data⟩

instance : IsTrans String goStrLeP :=
  ⟨fun a b c => goCharsLe_trans a.data b.data c.data⟩

/-- `sort.Strings`: sorts a list of strings lexicographically.  Modelled by
insertion sort, which produces the same result as any sorting algorithm:
the `goStrLe`-sorted permutation of its input. -/
def sortStrings (l : List String) : List String :=
  l.insertionSort goStrLeP

theorem sortStrings_sorted (l : List String) : List.Sorted goStrLeP (sortStrings l) :=
  List.sorted_insertionSort goStrLeP l

theorem sortStrings_perm (l : List String) : (sortStrings l).Perm l :=
  List.perm_insertionSort goStrLeP l

/-! ## C4: the dispatcher (`prepareTasks`, task_execution.go lines 12–20;
`main.go` builds the identical cross-product inline). -/

/-- `prepareTasks` (task_execution.go): builds the full cross-product of
identifiers × procedures, identifiers outermost, eagerly. -/
def prepareTasks (sols procedures : List String) : List ProcTask :=
  sols.flatMap fun sol => procedures.map fun proc => ⟨sol, proc⟩

theorem prepareTasks_eq_product (sols procedures : List String) :
    prepareTasks sols procedures = (sols ×ˢ procedures).map fun p => ⟨p.1, p.2⟩ := by
  induction sols with
  | nil => rfl
  | cons s sols ih =>
    simp only [prepareTasks, List.flatMap_cons] at ih ⊢
    rw [ih, List.product_cons, List.map_append, List.map_map]
    rfl

/-- C4: for identifier lists of size M and procedure lists of size N with
pairwise-distinct identifiers and pairwise-distinct procedure names, the
dispatcher produces exactly M×N work items, and no two of them agree on
both the identifier and the procedure. -/
theorem prepareTasks_cross_product (sols procedures : List String)
    (hs : sols.Nodup) (hp : procedures.Nodup) :
    (prepareTasks sols procedures).length = sols.length * procedures.length ∧
    List.Pairwise (fun t u : ProcTask => t.solID ≠ u.solID ∨ t.procedure ≠ u.procedure)
      (prepareTasks sols procedures) := by
  constructor
  · rw [prepareTasks_eq_product, List.length_map, List.length_product]
  · have hinj : Function.Injective (fun p : String × String => (⟨p.1, p.2⟩ : ProcTask)) := by
      intro ⟨a, b⟩ ⟨c, d⟩ h
      cases h
      rfl
    have hnd : (prepareTasks sols procedures).Nodup := by
      rw [prepareTasks_eq_product]
      exact (hs.product hp).map hinj
    refine hnd.imp ?_
    intro t u htu
    by_cases h1 : t.solID = u.solID
    · right
      intro h2
      exact htu (by cases t; cases u; simp_all)
    · left; exact h1

theorem prepareTasks_cross_product_witness :
    (["S1", "S2"] : List String).Nodup ∧ (["P1", "P2", "P3"] : List String).Nodup ∧
    ((prepareTasks ["S1", "S2"] ["P1", "P2", "P3"]).length = 2 * 3 ∧
      List.Pairwise (fun t u : ProcTask => t.solID ≠ u.solID ∨ t.procedure ≠ u.procedure)
        (prepareTasks ["S1", "S2"] ["P1", "P2", "P3"])) :=
  ⟨by decide, by decide,
    prepareTasks_cross_product ["S1", "S2"] ["P1", "P2", "P3"] (by decide) (by decide)⟩

/-! ## C6: the row formatter (`sanitize` and `formatRow`, utils.go lines 47–85;
the same functions appear verbatim in ExtractData.go and src/unnamed/part_001). -/

/-- `strings.ReplaceAll(s, old, new)` for a single-character pattern. -/
def replaceAllChar (s : String) (old new : Char) : String :=
  ⟨s.data.map fun c => if c = old then new else c⟩

/-- `sanitize` (utils.go line 47): replaces every newline, then every
carriage return, by a single space. -/
def sanitize (s : String) : String :=
  replaceAllChar (replaceAllChar s '\n' ' ') '\r' ' '

/-- The body of the fixed-width loop of `formatRow` (utils.go lines 62–78)
for one column: `v` is `values[i]` when `i < len(values)` and `none`
otherwise.  `fmt.Sprintf("%*s", w, s)` left-pads `s` with spaces to width
`w` and `"%-*s"` right-pads; neither truncates, but the preceding
`val[:col.Length]` slice already capped the length. -/
def fixedField (col : ColumnConfig) (v : Option String) : String :=
  let val : String :=
    match v with
    | some s => if s ≠ "" then sanitize s else ""
    | none => ""
  let val := if (val.length : Int) > col.length then ⟨val.data.take col.length.toNat⟩ else val
  if col.align = "right" then
    ⟨List.replicate (col.length.toNat - val.length) ' '⟩ ++ val
  else
    val ++ ⟨List.replicate (col.length.toNat - val.length) ' '⟩

/-- The fixed-width branch of `formatRow`: columns in order, each paired
positionally with its value (the Go loop reads `values[i]` only when
`i < len(values)`). -/
def fixedFields : List ColumnConfig → List String → String
  | [], _ => ""
  | col :: cols, values => fixedField col values.head? ++ fixedFields cols values.tail

/-- `formatRow` (utils.go lines 51–85): delimited mode joins the sanitized
values with the configured delimiter; fixed mode concatenates the
fixed-width fields; any other format yields the empty string (the Go
`switch` is an if-chain over `cfg.Format`). -/
def formatRow (cfg : ExtractionConfig) (cols : List ColumnConfig) (values : List String) : String :=
  if cfg.format = "delimited" then String.intercalate cfg.delimiter (values.map sanitize)
  else if cfg.format = "fixed" then fixedFields cols values
  else ""

theorem formatRow_fixed (cfg : ExtractionConfig) (cols : List ColumnConfig)
    (values : List String) (hcfg : cfg.format = "fixed") :
    formatRow cfg cols values = fixedFields cols values := by
  unfold formatRow
  rw [hcfg, if_neg (by decide), if_pos rfl]

theorem sanitize_empty : sanitize "" = "" := by decide

/-- C6: for a column of configured length `L ≥ 0`, the fixed-width
formatter's output for that column is exactly `L` characters: the value
(empty string if absent) is sanitized (each newline and carriage return
becomes a single space), truncated to `L` characters if longer, and padded
to `L` characters — left-padded with spaces when `align = "right"`,
right-padded otherwise. -/
theorem fixedField_exact_width (col : ColumnConfig) (v : Option String)
    (h : 0 ≤ col.length) :
    (fixedField col v).length = col.length.toNat
  ∧ fixedField col v =
      (let val : List Char := (sanitize (v.getD "")).data.take col.length.toNat
       if col.align = "right" then
         ⟨List.replicate (col.length.toNat - val.length) ' ' ++ val⟩
       else
         ⟨val ++ List.replicate (col.length.toNat - val.length) ' '⟩) := by
  have happ : ∀ a b : List Char, (⟨a⟩ : String) ++ (⟨b⟩ : String) = ⟨a ++ b⟩ := fun a b => rfl
  have hval : (match v with
      | some s => if s ≠ "" then sanitize s else ""
      | none => "") = sanitize (v.getD "") := by
    cases v with
    | none => exact sanitize_empty.symm
    | some s =>
      by_cases hs : s = ""
      · simp [hs, sanitize_empty]
      · simp [hs]
  have hshape : fixedField col v =
      (let val : List Char := (sanitize (v.getD "")).data.take col.length.toNat
       if col.align = "right" then
         ⟨List.replicate (col.length.toNat - val.length) ' ' ++ val⟩
       else
         ⟨val ++ List.replicate (col.length.toNat - val.length) ' '⟩) := by
    simp only [fixedField]
    rw [hval]
    by_cases hgt : ((sanitize (v.getD "")).length : Int) > col.length
    · rw [if_pos hgt]
      by_cases hal : col.align = "right"
      · simp only [if_pos hal]; rfl
      · simp only [if_neg hal]; rfl
    · rw [if_neg hgt]
      have hd : (sanitize (v.getD "")).length = (sanitize (v.getD "")).data.length := rfl
      have hle : (sanitize (v.getD "")).data.length ≤ col.length.toNat := by omega
      have htake : List.take col.length.toNat (sanitize (v.getD "")).data
          = (sanitize (v.getD "")).data := List.take_of_length_le hle
      rw [htake]
      by_cases hal : col.align = "right"
      · simp only [if_pos hal]; rfl
      · simp only [if_neg hal]; rfl
  refine ⟨?_, hshape⟩
  rw [hshape]
  have hlen : ((sanitize (v.getD "")).data.take col.length.toNat).length
      ≤ col.length.toNat := by
    rw [List.length_take]
    omega
  by_cases hal : col.align = "right" <;>
    simp only [hal, if_true, if_false, if_pos, if_neg] <;>
    simp only [String.length, List.length_append, List.length_replicate] <;>
    omega

theorem fixedField_exact_width_witness :
    (0 : Int) ≤ 5
  ∧ ((fixedField ⟨"COL", 5, "left"⟩ (some "ab\ncdefgh")).length = (5 : Int).toNat
      ∧ fixedField ⟨"COL", 5, "left"⟩ (some "ab\ncdefgh") =
          (let val : List Char :=
            (sanitize ((some "ab\ncdefgh").getD "")).data.take (5 : Int).toNat
           if ("left" : String) = "right" then
             ⟨List.replicate ((5 : Int).toNat - val.length) ' ' ++ val⟩
           else
             ⟨val ++ List.replicate ((5 : Int).toNat - val.length) ' '⟩)) :=
  ⟨by decide, fixedField_exact_width ⟨"COL", 5, "left"⟩ (some "ab\ncdefgh") (by decide)⟩

/-! ## The summary aggregation (`worker`, utils.go lines 154–170; the same
read-modify-write block appears in `runJobs` (main.go lines 66–82),
`startWorkers` (task_execution.go lines 64–80) and the other variants).

The Go `map[string]ProcSummary` is modelled as an association list; the
mutex serialises the updates, so the aggregate is a fold of the update
block over the arrival sequence of records. -/

/-- The shared `procSummary` map. -/
abbrev SummaryMap := List (String × ProcSummary)

/-- Go map lookup `procSummary[proc]`. -/
def summaryFind : SummaryMap → String → Option ProcSummary
  | [], _ => none
  | (k, v) :: rest, p => if k = p then some v else summaryFind rest p

/-- Go map store `procSummary[proc] = s` (overwrites an existing key). -/
def summaryInsert : SummaryMap → String → ProcSummary → SummaryMap
  | [], p, s => [(p, s)]
  | (k, v) :: rest, p, s => if k = p then (k, s) :: rest else (k, v) :: summaryInsert rest p s

/-- The merge of one record into an existing entry: the `exists` branch of
the locked block (utils.go lines 158–168). -/
def mergeSummary (s0 : ProcSummary) (r : ProcLog) : ProcSummary :=
  let s1 := if r.startTime < s0.startTime then { s0 with startTime := r.startTime } else s0
  let s2 := if s1.endTime < r.endTime then { s1 with endTime := r.endTime } else s1
  if s2.status ≠ .fail ∧ r.status = .fail then { s2 with status := .fail } else s2

/-- The locked read-modify-write block of the worker (utils.go lines
154–170): on the first record of a procedure a fresh `ProcSummary` is
stored; afterwards `StartTime` is lowered to earlier starts, `EndTime`
raised to later ends, and the status forced to FAIL if the record failed
and the summary was not already FAIL. -/
def updateSummary (m : SummaryMap) (plog : ProcLog) : SummaryMap :=
  match summaryFind m plog.procedure with
  | none =>
    summaryInsert m plog.procedure
      ⟨plog.procedure, plog.startTime, plog.endTime, plog.status⟩
  | some s0 => summaryInsert m plog.procedure (mergeSummary s0 plog)

/-- Merging a whole arrival sequence of records, in order, into an
initially empty summary map — exactly what the workers jointly do under
the mutex. -/
def foldRecords (recs : List ProcLog) : SummaryMap :=
  recs.foldl updateSummary []

theorem mergeSummary_procedure (s0 : ProcSummary) (r : ProcLog) :
    (mergeSummary s0 r).procedure = s0.procedure := by
  simp only [mergeSummary]
  split_ifs <;> rfl

theorem mergeSummary_startTime (s0 : ProcSummary) (r : ProcLog) :
    (mergeSummary s0 r).startTime = min s0.startTime r.startTime := by
  obtain ⟨p0, st0, en0, sta0⟩ := s0
  simp only [mergeSummary]
  split_ifs <;> simp_all <;> omega

theorem mergeSummary_endTime (s0 : ProcSummary) (r : ProcLog) :
    (mergeSummary s0 r).endTime = max s0.endTime r.endTime := by
  obtain ⟨p0, st0, en0, sta0⟩ := s0
  simp only [mergeSummary]
  split_ifs <;> simp_all <;> omega

theorem mergeSummary_status (s0 : ProcSummary) (r : ProcLog) :
    (mergeSummary s0 r).status =
      if s0.status = .fail ∨ r.status = .fail then .fail else s0.status := by
  obtain ⟨p0, st0, en0, sta0⟩ := s0
  simp only [mergeSummary]
  split_ifs <;> cases sta0 <;> cases hr : r.status <;> simp_all

theorem summaryFind_insert (m : SummaryMap) (k : String) (v : ProcSummary) (q : String) :
    summaryFind (summaryInsert m k v) q = if k = q then some v else summaryFind m q := by
  induction m with
  | nil => simp only [summaryInsert, summaryFind]
  | cons kv rest ih =>
    obtain ⟨k', v'⟩ := kv
    simp only [summaryInsert]
    by_cases hk : k' = k
    · subst hk
      rw [if_pos rfl]
      simp only [summaryFind]
      by_cases hq : k' = q
      · rw [if_pos hq, if_pos hq]
      · rw [if_neg hq, if_neg hq, if_neg hq]
    · rw [if_neg hk]
      simp only [summaryFind]
      by_cases hq : k' = q
      · have hkq : ¬ k = q := fun h => hk (hq ▸ h ▸ rfl)
        rw [if_pos hq, if_neg hkq, if_pos hq]
      · rw [if_neg hq, ih, if_neg hq]

/-- One update step, seen through `summaryFind`: an update for procedure
`r.procedure` replaces that entry by the merged one and leaves every other
procedure's entry unchanged. -/
theorem summaryFind_updateSummary (m : SummaryMap) (r : ProcLog) (p : String) :
    summaryFind (updateSummary m r) p =
      if r.procedure = p then
        some (match summaryFind m r.procedure with
          | none => ⟨r.procedure, r.startTime, r.endTime, r.status⟩
          | some s0 => mergeSummary s0 r)
      else summaryFind m p := by
  unfold updateSummary
  cases hf : summaryFind m r.procedure with
  | none => rw [summaryFind_insert]
  | some s0 => rw [summaryFind_insert]

theorem updateSummary_fail_iff (m : SummaryMap) (r : ProcLog) (p : String) :
    (∃ s, summaryFind (updateSummary m r) p = some s ∧ s.status = .fail)
    ↔ (∃ s, summaryFind m p = some s ∧ s.status = .fail)
      ∨ (r.procedure = p ∧ r.status = .fail) := by
  rw [summaryFind_updateSummary]
  by_cases hp : r.procedure = p
  · subst hp
    rw [if_pos rfl]
    cases hf : summaryFind m r.procedure with
    | none => simp
    | some s0 =>
      simp only [Option.some.injEq, exists_eq_left', true_and]
      rw [mergeSummary_status]
      cases hs : s0.status <;> cases hr : r.status <;> simp
  · rw [if_neg hp]
    simp [hp]

theorem foldl_updateSummary_fail_iff :
    ∀ (recs : List ProcLog) (m : SummaryMap) (p : String),
    (∃ s, summaryFind (recs.foldl updateSummary m) p = some s ∧ s.status = .fail)
    ↔ (∃ s, summaryFind m p = some s ∧ s.status = .fail)
      ∨ ∃ r ∈ recs, r.procedure = p ∧ r.status = .fail := by
  intro recs
  induction recs with
  | nil => intro m p; simp
  | cons r recs ih =>
    intro m p
    rw [List.foldl_cons, ih, updateSummary_fail_iff]
    constructor
    · rintro ((hm | hr) | ⟨r', hr', hp', hf'⟩)
      · exact Or.inl hm
      · exact Or.inr ⟨r, List.mem_cons_self r recs, hr⟩
      · exact Or.inr ⟨r', List.mem_cons_of_mem r hr', hp', hf'⟩
    · rintro (hm | ⟨r', hr', hp', hf'⟩)
      · exact Or.inl (Or.inl hm)
      · rcases List.mem_cons.mp hr' with h | h
        · subst h; exact Or.inl (Or.inr ⟨hp', hf'⟩)
        · exact Or.inr ⟨r', h, hp', hf'⟩

/-- C2: for every procedure and every sequence of records merged (in any
order) into an initially empty summary map, the resulting summary status
is FAIL iff at least one record of that procedure has status FAIL; and
once a summary entry is FAIL, no further `updateSummary` step makes it
SUCCESS again. -/
theorem summary_fail_iff_sticky (recs : List ProcLog) (p : String) (s : ProcSummary)
    (h : summaryFind (foldRecords recs) p = some s) :
    (s.status = .fail ↔ ∃ r ∈ recs, r.procedure = p ∧ r.status = .fail)
  ∧ ∀ (m : SummaryMap) (t : ProcSummary) (r : ProcLog),
      summaryFind m p = some t → t.status = .fail →
      ∃ t', summaryFind (updateSummary m r) p = some t' ∧ t'.status = .fail := by
  constructor
  · have hiff := foldl_updateSummary_fail_iff recs [] p
    rw [foldRecords] at h
    constructor
    · intro hs
      rcases hiff.mp ⟨s, h, hs⟩ with ⟨s', hs', _⟩ | hr
      · simp [summaryFind] at hs'
      · exact hr
    · intro hr
      rcases hiff.mpr (Or.inr hr) with ⟨s', hs', hf'⟩
      rw [h] at hs'
      cases hs'
      exact hf'
  · intro m t r hmt htf
    exact (updateSummary_fail_iff m r p).mpr (Or.inl ⟨t, hmt, htf⟩)

theorem summary_fail_iff_sticky_witness :
    summaryFind (foldRecords
        [⟨"S1", "P", 0, 10, 10, .fail, "boom"⟩, ⟨"S2", "P", 5, 20, 15, .success, ""⟩])
        "P" = some ⟨"P", 0, 20, .fail⟩
  ∧ (((Status.fail = .fail) ↔
        ∃ r ∈ [(⟨"S1", "P", 0, 10, 10, .fail, "boom"⟩ : ProcLog),
               ⟨"S2", "P", 5, 20, 15, .success, ""⟩],
          r.procedure = "P" ∧ r.status = .fail)
      ∧ ∀ (m : SummaryMap) (t : ProcSummary) (r : ProcLog),
          summaryFind m "P" = some t → t.status = .fail →
          ∃ t', summaryFind (updateSummary m r) "P" = some t' ∧ t'.status = .fail) :=
  ⟨by decide,
    summary_fail_iff_sticky
      [⟨"S1", "P", 0, 10, 10, .fail, "boom"⟩, ⟨"S2", "P", 5, 20, 15, .success, ""⟩]
      "P" ⟨"P", 0, 20, .fail⟩ (by decide)⟩

theorem summaryFind_updateSummary_isSome (m : SummaryMap) (r : ProcLog) (p : String) :
    (∃ s, summaryFind (updateSummary m r) p = some s)
    ↔ (∃ s, summaryFind m p = some s) ∨ r.procedure = p := by
  rw [summaryFind_updateSummary]
  by_cases hp : r.procedure = p
  · subst hp
    rw [if_pos rfl]
    cases hf : summaryFind m r.procedure <;> simp
  · rw [if_neg hp]
    simp [hp]

theorem foldl_updateSummary_isSome :
    ∀ (recs : List ProcLog) (m : SummaryMap) (p : String),
    (∃ s, summaryFind m p = some s) ∨ (∃ r ∈ recs, r.procedure = p) →
    ∃ s, summaryFind (recs.foldl updateSummary m) p = some s := by
  intro recs
  induction recs with
  | nil =>
    intro m p h
    rcases h with h | ⟨r, hr, _⟩
    · exact h
    · cases hr
  | cons r recs ih =>
    intro m p h
    rw [List.foldl_cons]
    apply ih
    rcases h with h | ⟨r', hr', hp'⟩
    · exact Or.inl ((summaryFind_updateSummary_isSome m r p).mpr (Or.inl h))
    · rcases List.mem_cons.mp hr' with h' | h'
      · subst h'
        exact Or.inl ((summaryFind_updateSummary_isSome m r' p).mpr (Or.inr hp'))
      · exact Or.inr ⟨r', h', hp'⟩

/-- The induction workhorse for C3: after folding `recs` into `m`, the
entry found for `p` bounds (and attains) the start/end times of the prior
entry and of every record for `p`. -/
theorem foldl_updateSummary_minmax :
    ∀ (recs : List ProcLog) (m : SummaryMap) (p : String) (s : ProcSummary),
    summaryFind (recs.foldl updateSummary m) p = some s →
    ((∀ t, summaryFind m p = some t → s.startTime ≤ t.startTime ∧ t.endTime ≤ s.endTime)
     ∧ (∀ r ∈ recs, r.procedure = p → s.startTime ≤ r.startTime ∧ r.endTime ≤ s.endTime)
     ∧ ((∃ t, summaryFind m p = some t ∧ s.startTime = t.startTime)
        ∨ (∃ r ∈ recs, r.procedure = p ∧ s.startTime = r.startTime))
     ∧ ((∃ t, summaryFind m p = some t ∧ s.endTime = t.endTime)
        ∨ (∃ r ∈ recs, r.procedure = p ∧ s.endTime = r.endTime))) := by
  intro recs
  induction recs with
  | nil =>
    intro m p s h
    simp only [List.foldl_nil] at h
    refine ⟨?_, ?_, ?_, ?_⟩
    · intro t ht
      rw [h] at ht
      injection ht with ht2
      subst ht2
      exact ⟨le_refl _, le_refl _⟩
    · intro r hr
      cases hr
    · exact Or.inl ⟨s, h, rfl⟩
    · exact Or.inl ⟨s, h, rfl⟩
  | cons r recs ih =>
    intro m p s h
    rw [List.foldl_cons] at h
    obtain ⟨hb1, hb2, ha1, ha2⟩ := ih (updateSummary m r) p s h
    have hstep := summaryFind_updateSummary m r p
    by_cases hp : r.procedure = p
    · subst hp
      rw [if_pos rfl] at hstep
      cases hf : summaryFind m r.procedure with
      | none =>
        have hstep' : summaryFind (updateSummary m r) r.procedure
            = some ⟨r.procedure, r.startTime, r.endTime, r.status⟩ := by
          rw [hstep, hf]
        have hXb := hb1 _ hstep'
        refine ⟨?_, ?_, ?_, ?_⟩
        · intro t ht
          exact absurd ht (by simp)
        · intro r' hr' hp'
          rcases List.mem_cons.mp hr' with h' | h'
          · subst h'
            exact hXb
          · exact hb2 r' h' hp'
        · rcases ha1 with ⟨t, ht, hst⟩ | ⟨r', hr', hp', hst⟩
          · rw [hstep'] at ht
            injection ht with ht2
            subst ht2
            exact Or.inr ⟨r, List.mem_cons_self r recs, rfl, hst⟩
          · exact Or.inr ⟨r', List.mem_cons_of_mem r hr', hp', hst⟩
        · rcases ha2 with ⟨t, ht, hst⟩ | ⟨r', hr', hp', hst⟩
          · rw [hstep'] at ht
            injection ht with ht2
            subst ht2
            exact Or.inr ⟨r, List.mem_cons_self r recs, rfl, hst⟩
          · exact Or.inr ⟨r', List.mem_cons_of_mem r hr', hp', hst⟩
      | some s0 =>
        have hstep' : summaryFind (updateSummary m r) r.procedure
            = some (mergeSummary s0 r) := by
          rw [hstep, hf]
        have hXb := hb1 _ hstep'
        rw [mergeSummary_startTime, mergeSummary_endTime] at hXb
        refine ⟨?_, ?_, ?_, ?_⟩
        · intro t ht
          injection ht with ht2
          subst ht2
          exact ⟨le_trans hXb.1 (min_le_left _ _), le_trans (le_max_left _ _) hXb.2⟩
        · intro r' hr' hp'
          rcases List.mem_cons.mp hr' with h' | h'
          · subst h'
            exact ⟨le_trans hXb.1 (min_le_right _ _), le_trans (le_max_right _ _) hXb.2⟩
          · exact hb2 r' h' hp'
        · rcases ha1 with ⟨t, ht, hst⟩ | ⟨r', hr', hp', hst⟩
          · rw [hstep'] at ht
            injection ht with ht2
            subst ht2
            rw [mergeSummary_startTime] at hst
            rcases le_total s0.startTime r.startTime with hle | hle
            · rw [min_eq_left hle] at hst
              exact Or.inl ⟨s0, rfl, hst⟩
            · rw [min_eq_right hle] at hst
              exact Or.inr ⟨r, List.mem_cons_self r recs, rfl, hst⟩
          · exact Or.inr ⟨r', List.mem_cons_of_mem r hr', hp', hst⟩
        · rcases ha2 with ⟨t, ht, hst⟩ | ⟨r', hr', hp', hst⟩
          · rw [hstep'] at ht
            injection ht with ht2
            subst ht2
            rw [mergeSummary_endTime] at hst
            rcases le_total s0.endTime r.endTime with hle | hle
            · rw [max_eq_right hle] at hst
              exact Or.inr ⟨r, List.mem_cons_self r recs, rfl, hst⟩
            · rw [max_eq_left hle] at hst
              exact Or.inl ⟨s0, rfl, hst⟩
          · exact Or.inr ⟨r', List.mem_cons_of_mem r hr', hp', hst⟩
    · rw [if_neg hp] at hstep
      refine ⟨?_, ?_, ?_, ?_⟩
      · intro t ht
        exact hb1 t (hstep.trans ht)
      · intro r' hr' hp'
        rcases List.mem_cons.mp hr' with h' | h'
        · subst h'
          exact absurd hp' hp
        · exact hb2 r' h' hp'
      · rcases ha1 with ⟨t, ht, hst⟩ | ⟨r', hr', hp', hst⟩
        · exact Or.inl ⟨t, hstep.symm.trans ht, hst⟩
        · exact Or.inr ⟨r', List.mem_cons_of_mem r hr', hp', hst⟩
      · rcases ha2 with ⟨t, ht, hst⟩ | ⟨r', hr', hp', hst⟩
        · exact Or.inl ⟨t, hstep.symm.trans ht, hst⟩
        · exact Or.inr ⟨r', List.mem_cons_of_mem r hr', hp', hst⟩

/-- C3: for every procedure with at least one record in the merged
sequence, the summary entry's `StartTime` is the minimum start time and
its `EndTime` the maximum end time over that procedure's records
(attained and bounding), and the result does not depend on the order in
which the records are folded in. -/
theorem summary_minmax_times (recs : List ProcLog) (p : String)
    (hne : ∃ r ∈ recs, r.procedure = p) :
    ∃ s, summaryFind (foldRecords recs) p = some s
      ∧ (∀ r ∈ recs, r.procedure = p → s.startTime ≤ r.startTime ∧ r.endTime ≤ s.endTime)
      ∧ (∃ r ∈ recs, r.procedure = p ∧ s.startTime = r.startTime)
      ∧ (∃ r ∈ recs, r.procedure = p ∧ s.endTime = r.endTime)
      ∧ ∀ recs', recs.Perm recs' →
          ∃ s', summaryFind (foldRecords recs') p = some s'
            ∧ s'.startTime = s.startTime ∧ s'.endTime = s.endTime := by
  obtain ⟨s, hs⟩ := foldl_updateSummary_isSome recs [] p (Or.inr hne)
  obtain ⟨_, hb2, ha1, ha2⟩ := foldl_updateSummary_minmax recs [] p s hs
  have hst : ∃ r ∈ recs, r.procedure = p ∧ s.startTime = r.startTime := by
    rcases ha1 with ⟨t, ht, _⟩ | h
    · exact absurd ht (by simp [summaryFind])
    · exact h
  have hen : ∃ r ∈ recs, r.procedure = p ∧ s.endTime = r.endTime := by
    rcases ha2 with ⟨t, ht, _⟩ | h
    · exact absurd ht (by simp [summaryFind])
    · exact h
  refine ⟨s, hs, hb2, hst, hen, ?_⟩
  intro recs' hperm
  have hne' : ∃ r ∈ recs', r.procedure = p := by
    obtain ⟨r, hr, hp'⟩ := hne
    exact ⟨r, hperm.mem_iff.mp hr, hp'⟩
  obtain ⟨s', hs'⟩ := foldl_updateSummary_isSome recs' [] p (Or.inr hne')
  obtain ⟨_, hb2', ha1', ha2'⟩ := foldl_updateSummary_minmax recs' [] p s' hs'
  have hst' : ∃ r ∈ recs', r.procedure = p ∧ s'.startTime = r.startTime := by
    rcases ha1' with ⟨t, ht, _⟩ | h
    · exact absurd ht (by simp [summaryFind])
    · exact h
  have hen' : ∃ r ∈ recs', r.procedure = p ∧ s'.endTime = r.endTime := by
    rcases ha2' with ⟨t, ht, _⟩ | h
    · exact absurd ht (by simp [summaryFind])
    · exact h
  refine ⟨s', hs', ?_, ?_⟩
  · obtain ⟨r0, hr0, hp0, he0⟩ := hst
    obtain ⟨r1, hr1, hp1, he1⟩ := hst'
    have h1 : s.startTime ≤ r1.startTime := (hb2 r1 (hperm.mem_iff.mpr hr1) hp1).1
    have h2 : s'.startTime ≤ r0.startTime := (hb2' r0 (hperm.mem_iff.mp hr0) hp0).1
    omega
  · obtain ⟨r0, hr0, hp0, he0⟩ := hen
    obtain ⟨r1, hr1, hp1, he1⟩ := hen'
    have h1 : r1.endTime ≤ s.endTime := (hb2 r1 (hperm.mem_iff.mpr hr1) hp1).2
    have h2 : r0.endTime ≤ s'.endTime := (hb2' r0 (hperm.mem_iff.mp hr0) hp0).2
    omega

theorem summary_minmax_times_witness :
    (∃ r ∈ [(⟨"S1", "P", 5, 10, 5, .success, ""⟩ : ProcLog),
            ⟨"S2", "P", 0, 8, 8, .success, ""⟩,
            ⟨"S3", "Q", 1, 2, 1, .success, ""⟩], r.procedure = "P")
  ∧ ∃ s, summaryFind (foldRecords
        [⟨"S1", "P", 5, 10, 5, .success, ""⟩,
         ⟨"S2", "P", 0, 8, 8, .success, ""⟩,
         ⟨"S3", "Q", 1, 2, 1, .success, ""⟩]) "P" = some s
      ∧ (∀ r ∈ [(⟨"S1", "P", 5, 10, 5, .success, ""⟩ : ProcLog),
                ⟨"S2", "P", 0, 8, 8, .success, ""⟩,
                ⟨"S3", "Q", 1, 2, 1, .success, ""⟩],
            r.procedure = "P" → s.startTime ≤ r.startTime ∧ r.endTime ≤ s.endTime)
      ∧ (∃ r ∈ [(⟨"S1", "P", 5, 10, 5, .success, ""⟩ : ProcLog),
                ⟨"S2", "P", 0, 8, 8, .success, ""⟩,
                ⟨"S3", "Q", 1, 2, 1, .success, ""⟩],
            r.procedure = "P" ∧ s.startTime = r.startTime)
      ∧ (∃ r ∈ [(⟨"S1", "P", 5, 10, 5, .success, ""⟩ : ProcLog),
                ⟨"S2", "P", 0, 8, 8, .success, ""⟩,
                ⟨"S3", "Q", 1, 2, 1, .success, ""⟩],
            r.procedure = "P" ∧ s.endTime = r.endTime)
      ∧ ∀ recs', List.Perm
            [⟨"S1", "P", 5, 10, 5, .success, ""⟩,
             ⟨"S2", "P", 0, 8, 8, .success, ""⟩,
             ⟨"S3", "Q", 1, 2, 1, .success, ""⟩] recs' →
          ∃ s', summaryFind (foldRecords recs') "P" = some s'
            ∧ s'.startTime = s.startTime ∧ s'.endTime = s.endTime :=
  ⟨by decide,
    summary_minmax_times
      [⟨"S1", "P", 5, 10, 5, .success, ""⟩,
       ⟨"S2", "P", 0, 8, 8, .success, ""⟩,
       ⟨"S3", "Q", 1, 2, 1, .success, ""⟩] "P" (by decide)⟩

/-! ## C1: the worker loop (utils.go lines 106–172, task_execution.go lines
36–85) and the per-item short-circuit inside `extractData`
(ExtractData.go lines 22–72, identical in src/unnamed/part_001 lines 77–127).

The database is an external collaborator: a work item's execution outcome
(wall-clock start/end and the returned error, if any) enters the model as
an oracle `exec : ProcTask → ItemResult`; `extractData` is modelled
separately over an explicit environment to show the in-item short-circuit. -/

/-- Outcome of executing one work item against the database: the observed
start/end instants and the error returned by `extractData`/`callProcedure`
(`none` on success). -/
structure ItemResult where
  startTime : Int
  endTime : Int
  error : Option String
deriving DecidableEq, Repr

/-- Building the `ProcLog` for one finished item (utils.go lines 137–151):
status FAIL with `ErrorDetails = err.Error()` when the execution returned
an error, status SUCCESS (empty details) otherwise. -/
def mkProcLog (task : ProcTask) (res : ItemResult) : ProcLog :=
  { solID := task.solID
    procedure := task.procedure
    startTime := res.startTime
    endTime := res.endTime
    executionTime := res.endTime - res.startTime
    status := match res.error with
      | some _ => .fail
      | none => .success
    errorDetails := match res.error with
      | some e => e
      | none => "" }

/-- The worker loop (utils.go lines 121–171): for each job, in order,
execute it, publish the `ProcLog`, and merge it into the shared summary
map; a failed item never stops the loop. -/
def workerRun (exec : ProcTask → ItemResult) (tasks : List ProcTask) (m : SummaryMap) :
    List ProcLog × SummaryMap :=
  match tasks with
  | [] => ([], m)
  | task :: rest =>
    let plog := mkProcLog task (exec task)
    let out := workerRun exec rest (updateSummary m plog)
    (plog :: out.1, out.2)

theorem workerRun_logs (exec : ProcTask → ItemResult) :
    ∀ (tasks : List ProcTask) (m : SummaryMap),
    (workerRun exec tasks m).1 = tasks.map fun t => mkProcLog t (exec t) := by
  intro tasks
  induction tasks with
  | nil => intro m; rfl
  | cons t rest ih =>
    intro m
    simp only [workerRun, List.map_cons]
    rw [ih]

theorem workerRun_summary (exec : ProcTask → ItemResult) :
    ∀ (tasks : List ProcTask) (m : SummaryMap),
    (workerRun exec tasks m).2
      = (tasks.map fun t => mkProcLog t (exec t)).foldl updateSummary m := by
  intro tasks
  induction tasks with
  | nil => intro m; rfl
  | cons t rest ih =>
    intro m
    simp only [workerRun, List.map_cons, List.foldl_cons]
    rw [ih]

/-- One row of the scanned query result: either the `NullString` column
values of the row, or the `rows.Scan` error. -/
abbrev RowScan := Except String (List (Option String))

/-- The extraction environment for one (procedure, identifier) pair: the
outcome of `QueryContext` (an error, or the rows with each row's scan
outcome) and of `os.Create` on the spool file. -/
structure ExtractEnv where
  queryResult : Except String (List RowScan)
  spoolCreateErr : Option String
deriving Repr

/-- The row loop of `extractData` (ExtractData.go lines 52–70): scan each
row (stopping at the first scan error), map `NullString`s to strings
(NULL becomes the empty string) and append the formatted line to the
spool buffer.  Returns the lines written and the error, if any. -/
def spoolRows (cfg : ExtractionConfig) (cols : List ColumnConfig) :
    List RowScan → List String × Option String
  | [] => ([], none)
  | .error e :: _ => ([], some e)
  | .ok vals :: rest =>
    let strValues := vals.map fun v => v.getD ""
    let line := formatRow cfg cols strValues
    let out := spoolRows cfg cols rest
    (line :: out.1, out.2)

/-- `extractData` (ExtractData.go lines 22–72): template lookup, query,
spool-file creation, then the row loop.  The first component is the spool
file's content (`none` when the file was never created), the second the
returned error. -/
def extractData (templates : String → Option (List ColumnConfig)) (cfg : ExtractionConfig)
    (procName : String) (env : ExtractEnv) : Option (List String) × Option String :=
  match templates procName with
  | none => (none, some ("missing template for procedure " ++ procName))
  | some cols =>
    match env.queryResult with
    | .error e => (none, some ("query failed: " ++ e))
    | .ok rowScans =>
      match env.spoolCreateErr with
      | some e => (none, some e)
      | none =>
        let out := spoolRows cfg cols rowScans
        (some out.1, out.2)

theorem spoolRows_short_circuit (cfg : ExtractionConfig) (cols : List ColumnConfig)
    (okRows : List (List (Option String))) (e : String) (rest : List RowScan) :
    spoolRows cfg cols (okRows.map Except.ok ++ .error e :: rest)
      = (okRows.map fun vals => formatRow cfg cols (vals.map fun v => v.getD ""), some e) := by
  induction okRows with
  | nil => rfl
  | cons vals okRows ih =>
    simp only [List.map_cons, List.cons_append, spoolRows, List.append_eq, ih]

/-- C1: a worker emits exactly one record per work item, in order; an item
whose execution returns an error gets a FAIL record carrying exactly that
error message while every other item (before and after) is still
processed and logged; and inside one EXTRACT item, a scan error at some
row short-circuits the remaining rows — only the rows before the failure
are formatted and spooled, whatever comes after. -/
theorem worker_failure_isolation (exec : ProcTask → ItemResult) (tasks : List ProcTask)
    (k : Nat) (e : String) (hk : k < tasks.length)
    (he : (exec tasks[k]).error = some e) :
    (workerRun exec tasks []).1 = (tasks.map fun t => mkProcLog t (exec t))
  ∧ (workerRun exec tasks []).1.length = tasks.length
  ∧ (mkProcLog tasks[k] (exec tasks[k])).status = .fail
  ∧ (mkProcLog tasks[k] (exec tasks[k])).errorDetails = e
  ∧ (∀ (templates : String → Option (List ColumnConfig)) (cfg : ExtractionConfig)
       (procName : String) (cols : List ColumnConfig)
       (okRows : List (List (Option String))) (e' : String) (rest : List RowScan),
      templates procName = some cols →
      extractData templates cfg procName
          ⟨.ok (okRows.map Except.ok ++ .error e' :: rest), none⟩
        = (some (okRows.map fun vals => formatRow cfg cols (vals.map fun v => v.getD "")),
            some e')) := by
  refine ⟨workerRun_logs exec tasks [], ?_, ?_, ?_, ?_⟩
  · rw [workerRun_logs exec tasks []]
    exact List.length_map _ _
  · simp only [mkProcLog, he]
  · simp only [mkProcLog, he]
  · intro templates cfg procName cols okRows e' rest htmpl
    simp only [extractData, htmpl, spoolRows_short_circuit]

theorem worker_failure_isolation_witness :
    (0 < ([⟨"S1", "P"⟩, ⟨"S2", "P"⟩] : List ProcTask).length
      ∧ ((fun t : ProcTask => if t.solID = "S1" then (⟨0, 5, some "boom"⟩ : ItemResult)
            else ⟨5, 9, none⟩) (⟨"S1", "P"⟩ : ProcTask)).error = some "boom")
  ∧ ((workerRun (fun t : ProcTask => if t.solID = "S1" then (⟨0, 5, some "boom"⟩ : ItemResult)
          else ⟨5, 9, none⟩) [⟨"S1", "P"⟩, ⟨"S2", "P"⟩] []).1
        = ([⟨"S1", "P"⟩, ⟨"S2", "P"⟩] : List ProcTask).map
            (fun t => mkProcLog t ((fun t : ProcTask =>
              if t.solID = "S1" then (⟨0, 5, some "boom"⟩ : ItemResult) else ⟨5, 9, none⟩) t))
      ∧ (workerRun (fun t : ProcTask => if t.solID = "S1" then (⟨0, 5, some "boom"⟩ : ItemResult)
            else ⟨5, 9, none⟩) [⟨"S1", "P"⟩, ⟨"S2", "P"⟩] []).1.length
          = ([⟨"S1", "P"⟩, ⟨"S2", "P"⟩] : List ProcTask).length
      ∧ (mkProcLog (⟨"S1", "P"⟩ : ProcTask) ⟨0, 5, some "boom"⟩).status = .fail
      ∧ (mkProcLog (⟨"S1", "P"⟩ : ProcTask) ⟨0, 5, some "boom"⟩).errorDetails = "boom"
      ∧ (∀ (templates : String → Option (List ColumnConfig)) (cfg : ExtractionConfig)
           (procName : String) (cols : List ColumnConfig)
           (okRows : List (List (Option String))) (e' : String) (rest : List RowScan),
          templates procName = some cols →
          extractData templates cfg procName
              ⟨.ok (okRows.map Except.ok ++ .error e' :: rest), none⟩
            = (some (okRows.map fun vals => formatRow cfg cols (vals.map fun v => v.getD "")),
                some e'))) :=
  ⟨⟨by decide, by decide⟩,
    worker_failure_isolation
      (fun t : ProcTask => if t.solID = "S1" then (⟨0, 5, some "boom"⟩ : ItemResult)
        else ⟨5, 9, none⟩)
      [⟨"S1", "P"⟩, ⟨"S2", "P"⟩] 0 "boom" (by decide) (by decide)⟩

/-! ## C5 and C8: the merge stage (`mergeFiles`, src/unnamed/part_001 lines
291–342; the skip-on-open-failure policy also appears in
src/unnamed/part_000; the variant in ExtractData.go lines 74–133 instead
aborts on an open failure).

For one procedure: `filepath.Glob` enumerates the `<proc>_*.spool` names
(`names`), `sort.Strings` sorts them, and the loop copies each openable
file's lines verbatim into the final file, skipping (with a logged
warning) any file that fails to open.  The filesystem enters the model as
`fs : String → Option (List String)` — `none` when `os.Open` fails,
otherwise the file's lines. -/

/-- The copy loop of `mergeFiles` (src/unnamed/part_001 lines 318–337):
files in the given order; an unopenable file is skipped, an openable one
contributes its lines in file order. -/
def mergeSpoolGo (fs : String → Option (List String)) : List String → List String
  | [] => []
  | n :: rest =>
    match fs n with
    | none => mergeSpoolGo fs rest
    | some lines => lines ++ mergeSpoolGo fs rest

/-- One procedure's merge: sort the spool filenames lexicographically,
then concatenate (src/unnamed/part_001 lines 295–338).  The result is the
content of the final `<proc>.txt` file, as a list of lines. -/
def mergeSpool (fs : String → Option (List String)) (names : List String) : List String :=
  mergeSpoolGo fs (sortStrings names)

/-- The strict copy loop of the `mergeFiles` variant in ExtractData.go
lines 104–116: an open failure is sent to the error channel and aborts
that procedure's merge. -/
def mergeSpoolStrictGo (fs : String → Option (List String)) :
    List String → Except String (List String)
  | [] => .ok []
  | n :: rest =>
    match fs n with
    | none => .error ("open " ++ n ++ " failed")
    | some lines => (mergeSpoolStrictGo fs rest).map fun ls => lines ++ ls

theorem mergeSpoolGo_eq_flatMap (fs : String → Option (List String)) :
    ∀ names : List String,
    mergeSpoolGo fs names = names.flatMap fun n => (fs n).getD [] := by
  intro names
  induction names with
  | nil => rfl
  | cons n rest ih =>
    simp only [mergeSpoolGo, List.flatMap_cons]
    cases hf : fs n with
    | none => simp [ih]
    | some lines => simp [ih]

/-- The spool filenames used in the spec's merge-ordering scenario:
`P_1.spool` holds the line `A`, `P_10.spool` the line `B`, `P_2.spool`
the line `C`. -/
def exampleSpoolFs : String → Option (List String) := fun n =>
  if n = "P_1.spool" then some ["A"]
  else if n = "P_10.spool" then some ["B"]
  else if n = "P_2.spool" then some ["C"]
  else none

/-- C5 counterexample: on the claim's own scenario (files `P_1.spool`,
`P_10.spool`, `P_2.spool` with lines `A`, `B`, `C` respectively) the
lexicographic order of the filenames is `P_1.spool < P_10.spool <
P_2.spool` — the listing order — so the merged output is `A`, `B`, `C`
(in any arrival order), not `A`, `C`, `B` as claimed. -/
theorem merge_example_counterexample :
    mergeSpool exampleSpoolFs ["P_1.spool", "P_10.spool", "P_2.spool"] = ["A", "B", "C"]
  ∧ mergeSpool exampleSpoolFs ["P_1.spool", "P_10.spool", "P_2.spool"] ≠ ["A", "C", "B"]
  ∧ mergeSpool exampleSpoolFs ["P_10.spool", "P_2.spool", "P_1.spool"] = ["A", "B", "C"] := by
  refine ⟨by decide, by decide, by decide⟩

/-- C5 (amended): the merge stage sorts the spool filenames
lexicographically before concatenation, so the merged content is the
concatenation of the files' lines in lexicographic filename order with
each file's internal line order preserved; on the concrete scenario
(`P_1.spool`, `P_10.spool`, `P_2.spool` holding `A`, `B`, `C`) the merged
output is `A`, then `B`, then `C`. -/
theorem merge_lex_order (fs : String → Option (List String)) (names : List String)
    (hopen : ∀ n ∈ names, (fs n).isSome) :
    mergeSpool fs names = ((sortStrings names).flatMap fun n => (fs n).getD [])
  ∧ (∀ n ∈ sortStrings names, ∃ lines, fs n = some lines)
  ∧ List.Sorted goStrLeP (sortStrings names)
  ∧ (sortStrings names).Perm names
  ∧ mergeSpool exampleSpoolFs ["P_1.spool", "P_10.spool", "P_2.spool"] = ["A", "B", "C"] := by
  refine ⟨mergeSpoolGo_eq_flatMap fs (sortStrings names), ?_, sortStrings_sorted names,
    sortStrings_perm names, by decide⟩
  intro n hn
  exact Option.isSome_iff_exists.mp (hopen n ((sortStrings_perm names).mem_iff.mp hn))

theorem merge_lex_order_witness :
    (∀ n ∈ ["P_10.spool", "P_2.spool", "P_1.spool"], (exampleSpoolFs n).isSome)
  ∧ (mergeSpool exampleSpoolFs ["P_10.spool", "P_2.spool", "P_1.spool"]
        = ((sortStrings ["P_10.spool", "P_2.spool", "P_1.spool"]).flatMap
            fun n => (exampleSpoolFs n).getD [])
      ∧ (∀ n ∈ sortStrings ["P_10.spool", "P_2.spool", "P_1.spool"],
          ∃ lines, exampleSpoolFs n = some lines)
      ∧ List.Sorted goStrLeP (sortStrings ["P_10.spool", "P_2.spool", "P_1.spool"])
      ∧ (sortStrings ["P_10.spool", "P_2.spool", "P_1.spool"]).Perm
          ["P_10.spool", "P_2.spool", "P_1.spool"]
      ∧ mergeSpool exampleSpoolFs ["P_1.spool", "P_10.spool", "P_2.spool"] = ["A", "B", "C"]) :=
  ⟨by decide,
    merge_lex_order exampleSpoolFs ["P_10.spool", "P_2.spool", "P_1.spool"] (by decide)⟩

theorem mergeSpoolGo_infix_of_mem (fs : String → Option (List String)) :
    ∀ (names : List String) (n : String) (lines : List String),
    n ∈ names → fs n = some lines → lines <:+: mergeSpoolGo fs names := by
  intro names
  induction names with
  | nil =>
    intro n lines hn
    cases hn
  | cons a rest ih =>
    intro n lines hn hl
    rcases List.mem_cons.mp hn with h | h
    · subst h
      simp only [mergeSpoolGo, hl]
      exact (List.prefix_append lines (mergeSpoolGo fs rest)).isInfix
    · simp only [mergeSpoolGo]
      cases hf : fs a with
      | none => exact ih n lines h hl
      | some ls =>
        exact (ih n lines h hl).trans (List.suffix_append ls (mergeSpoolGo fs rest)).isInfix

/-- C8: a spool file that fails to open is skipped and the merge continues
with the remaining spool files — removing the unopenable name (anywhere in
the enumeration) does not change the merged output, and every openable
file's lines still appear verbatim (contiguously) in the result; the skip
branch returns no error (unlike the strict ExtractData.go variant, whose
loop aborts with the open error). -/
theorem merge_skips_unopenable (fs : String → Option (List String)) (bad : String)
    (hbad : fs bad = none) :
    (∀ l₁ l₂ : List String, mergeSpoolGo fs (l₁ ++ bad :: l₂) = mergeSpoolGo fs (l₁ ++ l₂))
  ∧ (∀ (names : List String) (n : String) (lines : List String),
      n ∈ names → fs n = some lines → lines <:+: mergeSpool fs names)
  ∧ (∀ l₁ l₂ : List String,
      mergeSpoolStrictGo fs (l₁ ++ bad :: l₂)
        = if ∀ n ∈ l₁, (fs n).isSome then .error ("open " ++ bad ++ " failed")
          else mergeSpoolStrictGo fs (l₁ ++ bad :: l₂)) := by
  refine ⟨?_, ?_, ?_⟩
  · intro l₁
    induction l₁ with
    | nil =>
      intro l₂
      simp only [List.nil_append, mergeSpoolGo, hbad]
    | cons a rest ih =>
      intro l₂
      simp only [List.cons_append, mergeSpoolGo]
      cases hf : fs a with
      | none => exact ih l₂
      | some ls => exact congrArg (fun t => ls ++ t) (ih l₂)
  · intro names n lines hn hl
    exact mergeSpoolGo_infix_of_mem fs (sortStrings names) n lines
      ((sortStrings_perm names).mem_iff.mpr hn) hl
  · intro l₁
    induction l₁ with
    | nil =>
      intro l₂
      simp only [List.nil_append, mergeSpoolStrictGo, hbad]
      rw [if_pos]
      intro n hn
      cases hn
    | cons a rest ih =>
      intro l₂
      by_cases ha : (fs a).isSome
      · obtain ⟨ls, hls⟩ := Option.isSome_iff_exists.mp ha
        by_cases hall : ∀ n ∈ rest, (fs n).isSome
        · rw [if_pos ?hp]
          case hp =>
            intro n hn
            rcases List.mem_cons.mp hn with h | h
            · subst h; exact ha
            · exact hall n h
          have h2 := ih l₂
          rw [if_pos hall] at h2
          simp only [List.cons_append, mergeSpoolStrictGo, hls]
          show Except.map (fun t => ls ++ t) (mergeSpoolStrictGo fs (rest ++ bad :: l₂)) = _
          rw [h2]
          rfl
        · rw [if_neg ?hn]
          case hn =>
            intro hcontra
            exact hall fun n hn => hcontra n (List.mem_cons_of_mem a hn)
      · rw [if_neg ?hn2]
        case hn2 =>
          intro hcontra
          exact ha (hcontra a (List.mem_cons_self a rest))

theorem merge_skips_unopenable_witness :
    exampleSpoolFs "P_3.spool" = none
  ∧ ((∀ l₁ l₂ : List String,
        mergeSpoolGo exampleSpoolFs (l₁ ++ "P_3.spool" :: l₂) = mergeSpoolGo exampleSpoolFs (l₁ ++ l₂))
    ∧ (∀ (names : List String) (n : String) (lines : List String),
        n ∈ names → exampleSpoolFs n = some lines → lines <:+: mergeSpool exampleSpoolFs names)
    ∧ (∀ l₁ l₂ : List String,
        mergeSpoolStrictGo exampleSpoolFs (l₁ ++ "P_3.spool" :: l₂)
          = if ∀ n ∈ l₁, (exampleSpoolFs n).isSome
            then .error ("open " ++ "P_3.spool" ++ " failed")
            else mergeSpoolStrictGo exampleSpoolFs (l₁ ++ "P_3.spool" :: l₂))) :=
  ⟨by decide, merge_skips_unopenable exampleSpoolFs "P_3.spool" (by decide)⟩

/-! ## C7: the statement cache (`prepareStatements`, utils.go lines 175–209).

The database's `PrepareContext` is an oracle `prep : String → Option String`
mapping a query text to its prepare error (`none` on success).  The model
records the resource events: `prepared k` when a statement for key `k` is
stored in the map, `closed k` when it is closed. -/

/-- The two failure modes of `prepareStatements`. -/
inductive PrepError where
  | missingTemplate (proc : String)
  | prepareFailed (key msg : String)
deriving DecidableEq, Repr

/-- Statement-lifecycle events of one `prepareStatements` call. -/
inductive PrepEvent where
  | prepared (key : String)
  | closed (key : String)
deriving DecidableEq, Repr

/-- The per-procedure query and map key (utils.go lines 179–195): EXTRACT
builds the SELECT from the procedure's template (missing template is an
early error return), INSERT builds the parameterized call with key
`<package>.<procedure>`. -/
def stmtQueryKey (runCfg : ExtractionConfig) (templates : String → Option (List ColumnConfig))
    (mode proc : String) : Except PrepError (String × String) :=
  if mode = "E" then
    match templates proc with
    | none => .error (.missingTemplate proc)
    | some cols =>
      .ok ("SELECT " ++ String.intercalate ", " (cols.map fun c => c.name) ++ " FROM "
            ++ proc ++ " WHERE SOL_ID = :1", proc)
  else
    .ok ("BEGIN " ++ runCfg.packageName ++ "." ++ proc ++ "(:1); END;",
          runCfg.packageName ++ "." ++ proc)

/-- Go map key-set update `stmts[key] = stmt` (re-preparing an existing key
overwrites the entry; the key set gains `key` if absent). -/
def insertKey (stmts : List String) (k : String) : List String :=
  if k ∈ stmts then stmts else stmts ++ [k]

/-- The loop of `prepareStatements` (utils.go lines 178–206) over the
remaining procedures, carrying the keys prepared so far.  On a prepare
failure every statement in the map is closed (`for _, s := range stmts {
s.Close() }`) before the error is returned; on a missing template the Go
code returns without closing anything. -/
def prepareStatementsGo (runCfg : ExtractionConfig)
    (templates : String → Option (List ColumnConfig)) (mode : String)
    (prep : String → Option String) :
    List String → List String → Except PrepError (List String) × List PrepEvent
  | [], stmts => (.ok stmts, [])
  | proc :: rest, stmts =>
    match stmtQueryKey runCfg templates mode proc with
    | .error e => (.error e, [])
    | .ok (query, key) =>
      match prep query with
      | some e => (.error (.prepareFailed key e), stmts.map PrepEvent.closed)
      | none =>
        let out := prepareStatementsGo runCfg templates mode prep rest (insertKey stmts key)
        (out.1, .prepared key :: out.2)

/-- `prepareStatements` (utils.go lines 175–209): prepares one statement
per procedure of the run configuration, returning the key set of the
statement map, or the first error. -/
def prepareStatements (runCfg : ExtractionConfig)
    (templates : String → Option (List ColumnConfig)) (mode : String)
    (prep : String → Option String) : Except PrepError (List String) × List PrepEvent :=
  prepareStatementsGo runCfg templates mode prep runCfg.procedures []

theorem mem_insertKey (stmts : List String) (k x : String) :
    x ∈ insertKey stmts k ↔ x ∈ stmts ∨ x = k := by
  unfold insertKey
  by_cases hk : k ∈ stmts
  · rw [if_pos hk]
    constructor
    · exact fun h => Or.inl h
    · rintro (h | h)
      · exact h
      · exact h ▸ hk
  · rw [if_neg hk]
    simp [List.mem_append]

theorem stmtQueryKey_error (runCfg : ExtractionConfig)
    (templates : String → Option (List ColumnConfig)) (mode proc : String) (e : PrepError)
    (h : stmtQueryKey runCfg templates mode proc = .error e) :
    e = .missingTemplate proc := by
  unfold stmtQueryKey at h
  by_cases hm : mode = "E"
  · rw [if_pos hm] at h
    cases ht : templates proc with
    | none =>
      rw [ht] at h
      injection h with h2
      exact h2.symm
    | some cols =>
      rw [ht] at h
      cases h
  · rw [if_neg hm] at h
    cases h

theorem prepareStatementsGo_prepare_failure (runCfg : ExtractionConfig)
    (templates : String → Option (List ColumnConfig)) (mode : String)
    (prep : String → Option String) (k msg : String) :
    ∀ (procs stmts : List String),
    (prepareStatementsGo runCfg templates mode prep procs stmts).1
        = .error (.prepareFailed k msg) →
    ∀ key,
      (PrepEvent.prepared key ∈ (prepareStatementsGo runCfg templates mode prep procs stmts).2
        ∨ key ∈ stmts) →
      PrepEvent.closed key ∈ (prepareStatementsGo runCfg templates mode prep procs stmts).2 := by
  intro procs
  induction procs with
  | nil =>
    intro stmts h
    exact absurd h (by simp [prepareStatementsGo])
  | cons proc rest ih =>
    intro stmts h key hkey
    simp only [prepareStatementsGo] at h hkey ⊢
    cases hq : stmtQueryKey runCfg templates mode proc with
    | error e =>
      rw [hq] at h
      have h2 : (Except.error e : Except PrepError (List String))
          = .error (.prepareFailed k msg) := h
      injection h2 with h3
      cases ((stmtQueryKey_error runCfg templates mode proc e hq).symm.trans h3)
    | ok qk =>
      obtain ⟨query, skey⟩ := qk
      rw [hq] at h hkey
      have h2 : (match prep query with
          | some e => (Except.error (PrepError.prepareFailed skey e),
              stmts.map PrepEvent.closed)
          | none =>
            ((prepareStatementsGo runCfg templates mode prep rest (insertKey stmts skey)).1,
              PrepEvent.prepared skey ::
                (prepareStatementsGo runCfg templates mode prep rest
                  (insertKey stmts skey)).2)).1
          = .error (.prepareFailed k msg) := h
      have hkey2 : PrepEvent.prepared key ∈ (match prep query with
          | some e => (Except.error (PrepError.prepareFailed skey e),
              stmts.map PrepEvent.closed)
          | none =>
            ((prepareStatementsGo runCfg templates mode prep rest (insertKey stmts skey)).1,
              PrepEvent.prepared skey ::
                (prepareStatementsGo runCfg templates mode prep rest
                  (insertKey stmts skey)).2)).2 ∨ key ∈ stmts := hkey
      show PrepEvent.closed key ∈ (match prep query with
          | some e => (Except.error (PrepError.prepareFailed skey e),
              stmts.map PrepEvent.closed)
          | none =>
            ((prepareStatementsGo runCfg templates mode prep rest (insertKey stmts skey)).1,
              PrepEvent.prepared skey ::
                (prepareStatementsGo runCfg templates mode prep rest
                  (insertKey stmts skey)).2)).2
      cases hp : prep query with
      | some e =>
        try rw [hp] at h2
        try rw [hp] at hkey2
        try rw [hp]
        have hkey3 : PrepEvent.prepared key ∈ stmts.map PrepEvent.closed ∨ key ∈ stmts := hkey2
        show PrepEvent.closed key ∈ stmts.map PrepEvent.closed
        rcases hkey3 with hk1 | hk1
        · rcases List.mem_map.mp hk1 with ⟨y, _, hy⟩
          cases hy
        · exact List.mem_map.mpr ⟨key, hk1, rfl⟩
      | none =>
        try rw [hp] at h2
        try rw [hp] at hkey2
        try rw [hp]
        have h3 : (prepareStatementsGo runCfg templates mode prep rest
            (insertKey stmts skey)).1 = .error (.prepareFailed k msg) := h2
        have hkey3 : PrepEvent.prepared key ∈
            PrepEvent.prepared skey ::
              (prepareStatementsGo runCfg templates mode prep rest (insertKey stmts skey)).2
            ∨ key ∈ stmts := hkey2
        show PrepEvent.closed key ∈
          PrepEvent.prepared skey ::
            (prepareStatementsGo runCfg templates mode prep rest (insertKey stmts skey)).2
        rcases hkey3 with hk1 | hk1
        · rcases List.mem_cons.mp hk1 with hk2 | hk2
          · injection hk2 with hk3
            subst hk3
            exact List.mem_cons_of_mem _
              (ih (insertKey stmts key) h3 key
                (Or.inr ((mem_insertKey stmts key key).mpr (Or.inr rfl))))
          · exact List.mem_cons_of_mem _
              (ih (insertKey stmts skey) h3 key (Or.inl hk2))
        · exact List.mem_cons_of_mem _
            (ih (insertKey stmts skey) h3 key
              (Or.inr ((mem_insertKey stmts skey key).mpr (Or.inl hk1))))

/-- C7: when preparing the statement for some procedure fails, the call
returns that error (so no statement map is handed out), and every
statement it successfully prepared earlier in the same call has been
closed before the return. -/
theorem prepareStatements_no_leak (runCfg : ExtractionConfig)
    (templates : String → Option (List ColumnConfig)) (mode : String)
    (prep : String → Option String) (k msg : String)
    (h : (prepareStatements runCfg templates mode prep).1 = .error (.prepareFailed k msg)) :
    (∀ key, PrepEvent.prepared key ∈ (prepareStatements runCfg templates mode prep).2 →
        PrepEvent.closed key ∈ (prepareStatements runCfg templates mode prep).2)
  ∧ ∀ stmts, (prepareStatements runCfg templates mode prep).1 ≠ .ok stmts := by
  constructor
  · intro key hkey
    exact prepareStatementsGo_prepare_failure runCfg templates mode prep k msg
      runCfg.procedures [] h key (Or.inl hkey)
  · intro stmts hc
    rw [h] at hc
    cases hc

/-- A run configuration used by concrete witnesses. -/
def exampleRunCfg : ExtractionConfig :=
  ⟨"fixed", ",", ["P1", "P2"], "PKG", "/spool"⟩

/-- A prepare oracle that fails exactly on `PKG.P2`'s call statement. -/
def examplePrep : String → Option String := fun q =>
  if q = "BEGIN PKG.P2(:1); END;" then some "ORA-00942" else none

theorem prepareStatements_no_leak_witness :
    (prepareStatements exampleRunCfg (fun _ => none) "I" examplePrep).1
        = .error (.prepareFailed "PKG.P2" "ORA-00942")
  ∧ ((∀ key, PrepEvent.prepared key
          ∈ (prepareStatements exampleRunCfg (fun _ => none) "I" examplePrep).2 →
        PrepEvent.closed key
          ∈ (prepareStatements exampleRunCfg (fun _ => none) "I" examplePrep).2)
      ∧ ∀ stmts, (prepareStatements exampleRunCfg (fun _ => none) "I" examplePrep).1
          ≠ .ok stmts) :=
  ⟨rfl,
    prepareStatements_no_leak exampleRunCfg (fun _ => none) "I" examplePrep
      "PKG.P2" "ORA-00942" rfl⟩

/-! ## C9 and C10: the persisted log and summary files (`writeLog` and
`writeSummary`, src/unnamed/part_004).

Each CSV row is modelled as its list of fields.  `time.Time.Format` with
layout `"02-01-2006 15:04:05"` renders DD-MM-YYYY HH:MM:SS; it is
recovered from the `Int` nanosecond instant by a civil-calendar
conversion (UTC).  `fmt.Sprintf("%.3f", d.Seconds())` formats the
duration with three decimals; it is modelled by decimal rounding at the
millisecond (the Go code rounds the closest binary double, which agrees
on these values). -/

/-- Two-digit zero-padded decimal (the `02`/`01`/`15`/`04`/`05` layout
fields). -/
def pad2 (n : Nat) : String :=
  if n < 10 then "0" ++ toString n else toString n

/-- Three-digit zero-padded decimal (the milliseconds of `%.3f`). -/
def pad3 (n : Nat) : String :=
  if n < 10 then "00" ++ toString n
  else if n < 100 then "0" ++ toString n
  else toString n

/-- Four-digit zero-padded year (the `2006` layout field). -/
def pad4 (y : Int) : String :=
  let n := y.natAbs
  let digits :=
    if n < 10 then "000" ++ toString n
    else if n < 100 then "00" ++ toString n
    else if n < 1000 then "0" ++ toString n
    else toString n
  if y < 0 then "-" ++ digits else digits

/-- Civil date (year, month, day) of a day count since 1970-01-01
(Howard Hinnant's `civil_from_days`, as used by every civil-time
library; Go's `time` package computes the same calendar). -/
def civilFromDays (z0 : Int) : Int × Nat × Nat :=
  let z := z0 + 719468
  let era := z.fdiv 146097
  let doe := (z - era * 146097).toNat
  let yoe := (doe - doe / 1460 + doe / 36524 - doe / 146096) / 365
  let doy := doe - (365 * yoe + yoe / 4 - yoe / 100)
  let mp := (5 * doy + 2) / 153
  let d := doy - (153 * mp + 2) / 5 + 1
  let m := if mp < 10 then mp + 3 else mp - 9
  (era * 400 + yoe + (if m ≤ 2 then 1 else 0), m, d)

/-- `t.Format("02-01-2006 15:04:05")`: DD-MM-YYYY HH:MM:SS (UTC) of an
`Int` nanosecond instant. -/
def formatGoTime (nanos : Int) : String :=
  let totalSec := nanos.fdiv 1000000000
  let days := totalSec.fdiv 86400
  let sod := (totalSec - days * 86400).toNat
  let ymd := civilFromDays days
  pad2 ymd.2.2 ++ "-" ++ pad2 ymd.2.1 ++ "-" ++ pad4 ymd.1 ++ " "
    ++ pad2 (sod / 3600) ++ ":" ++ pad2 (sod % 3600 / 60) ++ ":" ++ pad2 (sod % 60)

/-- `fmt.Sprintf("%.3f", d.Seconds())` of a duration in nanoseconds,
modelled with decimal rounding (half away from zero) at the millisecond. -/
def formatSeconds3 (nanos : Int) : String :=
  let ms := (nanos.natAbs + 500000) / 1000000
  (if nanos < 0 then "-" else "") ++ toString (ms / 1000) ++ "." ++ pad3 (ms % 1000)

/-- The header row of the per-item log file (src/unnamed/part_004 line 28). -/
def logHeader : List String :=
  ["SOL_ID", "PROCEDURE", "START_TIME", "END_TIME", "EXECUTION_SECONDS", "STATUS",
   "ERROR_DETAILS"]

/-- One log row (src/unnamed/part_004 lines 32–46): `ERROR_DETAILS`
becomes `-` when the record's error detail is empty. -/
def logRecordRow (plog : ProcLog) : List String :=
  let errDetails := if plog.errorDetails = "" then "-" else plog.errorDetails
  [plog.solID, plog.procedure, formatGoTime plog.startTime, formatGoTime plog.endTime,
   formatSeconds3 plog.executionTime, statusStr plog.status, errDetails]

/-- The consumption loop of `writeLog`: one row per record, in channel
(consumption) order. -/
def writeLogRows : List ProcLog → List (List String)
  | [] => []
  | plog :: rest => logRecordRow plog :: writeLogRows rest

/-- `writeLog` (src/unnamed/part_004 lines 13–51): the header row followed
by one row per consumed record. -/
def writeLog (records : List ProcLog) : List (List String) :=
  logHeader :: writeLogRows records

theorem writeLogRows_eq_map (records : List ProcLog) :
    writeLogRows records = records.map logRecordRow := by
  induction records with
  | nil => rfl
  | cons r rest ih => simp only [writeLogRows, List.map_cons, ih]

/-- C9: the log file is the header `SOL_ID, PROCEDURE, START_TIME,
END_TIME, EXECUTION_SECONDS, STATUS, ERROR_DETAILS` followed by exactly
one row per consumed record, in consumption order; both timestamps are
rendered as DD-MM-YYYY HH:MM:SS and the `ERROR_DETAILS` field is `-`
exactly when the record's error detail is empty. -/
theorem writeLog_format (records : List ProcLog) :
    (writeLog records).length = records.length + 1
  ∧ (writeLog records).head? = some logHeader
  ∧ (∀ k, (hk : k < records.length) →
      (writeLog records)[k + 1]? = some
        [records[k].solID, records[k].procedure,
         formatGoTime (records[k]).startTime, formatGoTime (records[k]).endTime,
         formatSeconds3 (records[k]).executionTime, statusStr (records[k]).status,
         if (records[k]).errorDetails = "" then "-" else (records[k]).errorDetails])
  ∧ formatGoTime 1044072306000000000 = "01-02-2003 04:05:06" := by
  refine ⟨?_, rfl, ?_, by decide⟩
  · simp only [writeLog, writeLogRows_eq_map, List.length_cons, List.length_map]
  · intro k hk
    simp only [writeLog, writeLogRows_eq_map]
    rw [List.getElem?_cons_succ, List.getElem?_map,
      List.getElem?_eq_getElem hk]
    rfl

theorem writeLog_format_witness :
    (0 < ([⟨"S1", "P", 0, 2000000000, 2000000000, .fail, "boom"⟩,
           ⟨"S2", "P", 0, 1000000000, 1000000000, .success, ""⟩] : List ProcLog).length)
  ∧ ((writeLog [⟨"S1", "P", 0, 2000000000, 2000000000, .fail, "boom"⟩,
                ⟨"S2", "P", 0, 1000000000, 1000000000, .success, ""⟩]).length
        = ([⟨"S1", "P", 0, 2000000000, 2000000000, .fail, "boom"⟩,
            ⟨"S2", "P", 0, 1000000000, 1000000000, .success, ""⟩] : List ProcLog).length + 1
      ∧ (writeLog [⟨"S1", "P", 0, 2000000000, 2000000000, .fail, "boom"⟩,
                   ⟨"S2", "P", 0, 1000000000, 1000000000, .success, ""⟩]).head?
          = some logHeader
      ∧ (∀ k, (hk : k < ([⟨"S1", "P", 0, 2000000000, 2000000000, .fail, "boom"⟩,
                          ⟨"S2", "P", 0, 1000000000, 1000000000, .success, ""⟩]
                  : List ProcLog).length) →
          (writeLog [⟨"S1", "P", 0, 2000000000, 2000000000, .fail, "boom"⟩,
                     ⟨"S2", "P", 0, 1000000000, 1000000000, .success, ""⟩])[k + 1]? = some
            [([⟨"S1", "P", 0, 2000000000, 2000000000, .fail, "boom"⟩,
               ⟨"S2", "P", 0, 1000000000, 1000000000, .success, ""⟩]
                 : List ProcLog)[k].solID,
             ([⟨"S1", "P", 0, 2000000000, 2000000000, .fail, "boom"⟩,
               ⟨"S2", "P", 0, 1000000000, 1000000000, .success, ""⟩]
                 : List ProcLog)[k].procedure,
             formatGoTime (([⟨"S1", "P", 0, 2000000000, 2000000000, .fail, "boom"⟩,
               ⟨"S2", "P", 0, 1000000000, 1000000000, .success, ""⟩]
                 : List ProcLog)[k]).startTime,
             formatGoTime (([⟨"S1", "P", 0, 2000000000, 2000000000, .fail, "boom"⟩,
               ⟨"S2", "P", 0, 1000000000, 1000000000, .success, ""⟩]
                 : List ProcLog)[k]).endTime,
             formatSeconds3 (([⟨"S1", "P", 0, 2000000000, 2000000000, .fail, "boom"⟩,
               ⟨"S2", "P", 0, 1000000000, 1000000000, .success, ""⟩]
                 : List ProcLog)[k]).executionTime,
             statusStr (([⟨"S1", "P", 0, 2000000000, 2000000000, .fail, "boom"⟩,
               ⟨"S2", "P", 0, 1000000000, 1000000000, .success, ""⟩]
                 : List ProcLog)[k]).status,
             if (([⟨"S1", "P", 0, 2000000000, 2000000000, .fail, "boom"⟩,
               ⟨"S2", "P", 0, 1000000000, 1000000000, .success, ""⟩]
                 : List ProcLog)[k]).errorDetails = "" then "-"
             else (([⟨"S1", "P", 0, 2000000000, 2000000000, .fail, "boom"⟩,
               ⟨"S2", "P", 0, 1000000000, 1000000000, .success, ""⟩]
                 : List ProcLog)[k]).errorDetails])
      ∧ formatGoTime 1044072306000000000 = "01-02-2003 04:05:06") :=
  ⟨by decide,
    writeLog_format [⟨"S1", "P", 0, 2000000000, 2000000000, .fail, "boom"⟩,
                     ⟨"S2", "P", 0, 1000000000, 1000000000, .success, ""⟩]⟩

/-- The header row of the summary file (src/unnamed/part_004 line 66). -/
def summaryHeader : List String :=
  ["PROCEDURE", "EARLIEST_START_TIME", "LATEST_END_TIME", "EXECUTION_SECONDS", "STATUS"]

/-- One summary row (src/unnamed/part_004 lines 77–87): `EXECUTION_SECONDS`
is `s.EndTime.Sub(s.StartTime).Seconds()` — the wall-clock span between
the earliest start and the latest end, not a sum of per-item times. -/
def summaryRow (p : String) (s : ProcSummary) : List String :=
  [p, formatGoTime s.startTime, formatGoTime s.endTime,
   formatSeconds3 (s.endTime - s.startTime), statusStr s.status]

/-- `writeSummary` (src/unnamed/part_004 lines 54–92): collects the map's
keys, sorts them lexicographically (`sort.Strings`), and emits one row per
procedure.  A key enumerated from the map always finds its entry, so the
`filterMap` is the total rendering of the Go `s := summary[p]` lookup. -/
def writeSummary (m : SummaryMap) : List (List String) :=
  summaryHeader ::
    ((sortStrings (m.map Prod.fst)).filterMap fun p => (summaryFind m p).map (summaryRow p))

/-- Two overlapping records of procedure `P`: 0s→8s and 1s→9s.  Their
execution times sum to 16 s, but the wall-clock span of the merged
summary is 9 s. -/
def exampleSummaryRecords : List ProcLog :=
  [⟨"S1", "P", 0, 8000000000, 8000000000, .success, ""⟩,
   ⟨"S2", "P", 1000000000, 9000000000, 8000000000, .success, ""⟩]

/-- C10: the persisted summary consists of the header followed by one row
per procedure in lexicographic procedure-name order, and each row's
`EXECUTION_SECONDS` is computed from the summary span `EndTime − StartTime`
(latest end minus earliest start); on two overlapping 8-second items the
file shows the 9-second span, not the 16-second sum of the per-item
execution times. -/
theorem writeSummary_span_sorted (m : SummaryMap) :
    (writeSummary m).head? = some summaryHeader
  ∧ (writeSummary m).tail
      = ((sortStrings (m.map Prod.fst)).filterMap fun p => (summaryFind m p).map (summaryRow p))
  ∧ List.Sorted goStrLeP (sortStrings (m.map Prod.fst))
  ∧ (sortStrings (m.map Prod.fst)).Perm (m.map Prod.fst)
  ∧ (∀ p s, summaryFind m p = some s →
      (summaryRow p s)[3]? = some (formatSeconds3 (s.endTime - s.startTime)))
  ∧ (writeSummary (foldRecords exampleSummaryRecords))[1]?
      = some ["P", "01-01-1970 00:00:00", "01-01-1970 00:00:09", "9.000", "SUCCESS"]
  ∧ formatSeconds3 (8000000000 + 8000000000) = "16.000"
  ∧ ("9.000" : String) ≠ "16.000" := by
  refine ⟨rfl, rfl, sortStrings_sorted _, sortStrings_perm _, ?_, by decide, by decide, by decide⟩
  intro p s h
  rfl

theorem writeSummary_span_sorted_witness :
    (writeSummary [("P", ⟨"P", 0, 9000000000, .success⟩)]).head? = some summaryHeader
  ∧ (writeSummary [("P", ⟨"P", 0, 9000000000, .success⟩)]).tail
      = ((sortStrings (([("P", (⟨"P", 0, 9000000000, .success⟩ : ProcSummary))]
            : SummaryMap).map Prod.fst)).filterMap
          fun p => (summaryFind [("P", ⟨"P", 0, 9000000000, .success⟩)] p).map (summaryRow p))
  ∧ List.Sorted goStrLeP (sortStrings (([("P", (⟨"P", 0, 9000000000, .success⟩ : ProcSummary))]
      : SummaryMap).map Prod.fst))
  ∧ (sortStrings (([("P", (⟨"P", 0, 9000000000, .success⟩ : ProcSummary))]
      : SummaryMap).map Prod.fst)).Perm
      (([("P", (⟨"P", 0, 9000000000, .success⟩ : ProcSummary))] : SummaryMap).map Prod.fst)
  ∧ (∀ p s, summaryFind [("P", ⟨"P", 0, 9000000000, .success⟩)] p = some s →
      (summaryRow p s)[3]? = some (formatSeconds3 (s.endTime - s.startTime)))
  ∧ (writeSummary (foldRecords exampleSummaryRecords))[1]?
      = some ["P", "01-01-1970 00:00:00", "01-01-1970 00:00:09", "9.000", "SUCCESS"]
  ∧ formatSeconds3 (8000000000 + 8000000000) = "16.000"
  ∧ ("9.000" : String) ≠ "16.000" :=
  writeSummary_span_sorted [("P", ⟨"P", 0, 9000000000, .success⟩)]
